import Mathlib

/-!
Verification of the December Planner calendar application.

The development embeds, as executable Lean definitions, the derived
computations of the app: completion scoring (`Calendar.getTaskStyle`,
the project progress loop in `App`), opacity mapping (`getTaskStyle`,
`DayView.getOpacity`), the radial segment layout engine
(`DayView.taskSegments` / `addSegment`), the month-grid projection and
windowing (`Calendar.getTasksForDay`, the display window logic), and the
task move/create/update handlers (`App.handleMoveTask`,
`App.handleAddTasks`, `App.handleUpdateTask`).  Machine numbers are
modelled as `Nat`/`Int`/`ℚ`; JavaScript `%` and `/` on numbers are
modelled exactly (real division, `fmod`).
-/

namespace Planner

/-- Checklist item owned by a task (types.ts `ChecklistItem`). -/
structure ChecklistItem where
  id : String
  text : String
  completed : Bool
deriving Repr, DecidableEq

/-- Content idea owned by a task (types.ts `ContentIdea`); the `type` field
is one of "video", "story", "image". -/
structure ContentIdea where
  id : String
  type : String
  text : String
deriving Repr, DecidableEq

/-- Calendar task (types.ts `CalendarEvent` / `CalendarTask`): `date` is an
ISO `YYYY-MM-DD` string, `startTime`/`endTime` are `HH:mm` 24-hour strings. -/
structure Task where
  id : String
  projectId : String
  title : String
  date : String
  startTime : String
  endTime : String
  description : Option String
  checklist : List ChecklistItem
  contentIdeas : List ContentIdea
  completed : Bool
deriving Repr, DecidableEq

/-- Project (types.ts `Project`). -/
structure Project where
  id : String
  name : String
  color : String
deriving Repr, DecidableEq

/-! ## Time utilities

`task.startTime.split(':').map(Number)` followed by `h * 60 + m`. -/

/-- Splitting of a character list at every occurrence of a separator, the
model of `String.prototype.split` with a single-character separator. -/
def splitOnChar (c : Char) : List Char → List (List Char)
  | [] => [[]]
  | x :: xs =>
    let r := splitOnChar c xs
    if x = c then [] :: r
    else
      match r with
      | [] => [[x]]
      | y :: ys => (x :: y) :: ys

/-- Numeric value of a digit string, the model of JavaScript `Number` on the
`HH` / `mm` components (`none` models `NaN`). -/
def numVal (cs : List Char) : Option Nat :=
  if cs ≠ [] ∧ cs.all (fun c => c.isDigit) then
    some (cs.foldl (fun a c => a * 10 + (c.toNat - 48)) 0)
  else none

/-- Minutes since midnight of an `HH:mm` string, as computed by
`const [h, m] = s.split(':').map(Number); h * 60 + m` (a malformed
component is defaulted to 0 here; the app only ever feeds `HH:mm`
strings to this computation). -/
def toMinutes (s : String) : Nat :=
  let parts := splitOnChar ':' s.data
  (((parts.get? 0).bind numVal).getD 0) * 60 +
    (((parts.get? 1).bind numVal).getD 0)

/-- Lexicographic comparison of character lists, the model of string
comparison (`localeCompare` on `HH:mm` strings). -/
def lexLe : List Char → List Char → Bool
  | [], _ => true
  | _ :: _, [] => false
  | a :: as, b :: bs => if a = b then lexLe as bs else decide (a < b)

/-- String comparison used for sorting tasks by `startTime`. -/
def strLe (a b : String) : Bool := lexLe a.data b.data

/-! ## Completion scoring (Calendar.tsx `getTaskStyle`, App.tsx progress loop) -/

/-- Number of completed checklist items of a task. -/
def doneCount (t : Task) : Nat :=
  (t.checklist.filter (fun i => i.completed)).length

/-- Per-task progress as computed in `getTaskStyle` (Calendar.tsx):
`let progress = total === 0 ? (task.completed ? 1 : 0) : completed / total;
if (task.completed) progress = 1;`. -/
def progress (t : Task) : ℚ :=
  let total := t.checklist.length
  let p : ℚ := if total = 0 then (if t.completed then 1 else 0)
               else (doneCount t : ℚ) / (total : ℚ)
  if t.completed then 1 else p

/-- Per-task contribution to a project's completion score, as accumulated in
the App.tsx progress loop: `if (e.completed) { += 1 } else if (e.checklist &&
e.checklist.length > 0) { += checked / e.checklist.length }`. -/
def taskScore (t : Task) : ℚ :=
  if t.completed then 1
  else if 0 < t.checklist.length then
    (doneCount t : ℚ) / (t.checklist.length : ℚ)
  else 0

/-- Alpha channel computed in `getTaskStyle` (Calendar.tsx):
`const alpha = 0.15 + (progress * 0.85)`. -/
def getTaskStyleAlpha (t : Task) : ℚ :=
  0.15 + (progress t * 0.85)

/-- Stroke opacity computed in `DayView.getOpacity`:
`if (task.completed) return 1; if (total === 0) return 0.2;
return 0.2 + (completed / total) * 0.8;`. -/
def getOpacity (t : Task) : ℚ :=
  let total := t.checklist.length
  if t.completed then 1
  else if total = 0 then 0.2
  else 0.2 + ((doneCount t : ℚ) / (total : ℚ)) * 0.8

lemma doneCount_le_length (t : Task) : doneCount t ≤ t.checklist.length :=
  List.length_filter_le _ _

lemma progress_nonneg (t : Task) : 0 ≤ progress t := by
  simp only [progress]
  split
  · norm_num
  · split
    · norm_num
    · positivity

lemma progress_le_one (t : Task) : progress t ≤ 1 := by
  simp only [progress]
  split
  · norm_num
  · split
    · norm_num
    · rename_i htot
      rw [div_le_one]
      · exact_mod_cast doneCount_le_length t
      · have : 0 < t.checklist.length := Nat.pos_of_ne_zero htot
        positivity

lemma taskScore_eq_progress (t : Task) : taskScore t = progress t := by
  rcases h : t.completed with _ | _
  · simp only [taskScore, progress, h]
    by_cases htot : t.checklist.length = 0
    · simp [htot]
    · simp [htot, Nat.pos_of_ne_zero htot]
  · simp [taskScore, progress, h]

/-! ## Radial segment layout engine (DayView, `taskSegments` / `addSegment`)

Evaluation instants are modelled as absolute minutes: a date string is
mapped to a day number by an arbitrary `dayIdx : String → ℤ`, and the
instant of `date` at `HH:mm` is `dayIdx date * 1440 + toMinutes "HH:mm"`.
JavaScript `%` on numbers is `fmod`; `/` is real division. -/

/-- JavaScript `%` on nonnegative numbers: `x - y * floor(x / y)`. -/
def jsMod (x y : ℚ) : ℚ := x - y * (⌊x / y⌋ : ℚ)

/-- Angle (degrees) of a minute mark, as computed in `addSegment`:
`((min / 60) % 12) * 30 + (min % 60) * 0.5` with JavaScript real
division in `min / 60`. -/
def minuteToDeg (m : Nat) : ℚ :=
  jsMod ((m : ℚ) / 60) 12 * 30 + ((m % 60 : Nat) : ℚ) * 0.5

/-- Clock-hand angle computed in DayView:
`((now.getHours() % 12) * 30) + (now.getMinutes() * 0.5)`. -/
def currentHandDegrees (hours minutes : Nat) : ℚ :=
  ((hours % 12 : Nat) : ℚ) * 30 + (minutes : ℚ) * 0.5

/-- Model of date-fns `isWithinInterval` (inclusive of both endpoints). -/
def isWithinInterval (t start finish : ℤ) : Bool :=
  decide (start ≤ t ∧ t ≤ finish)

/-- Drawable arc segment pushed by `addSegment`: the SVG path is
represented by its determining data (`isPm` selects the ring radius,
`startDeg`/`endDeg` are the arc angles after the wrap adjustment);
`startMin`/`endMin` are the two minute arguments of `addSegment`. -/
structure Segment where
  id : String
  task : Task
  isPm : Bool
  startDeg : ℚ
  endDeg : ℚ
  color : String
  isActive : Bool
  duration : ℤ
  startMin : Nat
  endMin : Nat
deriving Repr

/-- Project colour resolution: `project?.color || '#cbd5e1'`. -/
def resolveColor (projects : List Project) (t : Task) : String :=
  (((projects.find? (fun p => p.id == t.projectId)).map Project.color)).getD "#cbd5e1"

/-- The `addSegment` helper of `DayView.taskSegments`: computes the two
angles, applies the wrap adjustment `if (endDeg < startDeg) endDeg += 360`,
and records `isActive` from the original unsplit task interval via
`isWithinInterval(currentTime, parse(task.date task.startTime),
parse(task.date task.endTime))`. -/
def addSegment (dayIdx : String → ℤ) (now : ℤ) (t : Task) (color : String)
    (isPm : Bool) (startMin endMin : Nat) : Segment :=
  let startDeg := minuteToDeg startMin
  let endDeg := minuteToDeg endMin
  { id := t.id
    task := t
    isPm := isPm
    startDeg := startDeg
    endDeg := if endDeg < startDeg then endDeg + 360 else endDeg
    color := color
    isActive := isWithinInterval now
      (dayIdx t.date * 1440 + (toMinutes t.startTime : ℤ))
      (dayIdx t.date * 1440 + (toMinutes t.endTime : ℤ))
    duration := (endMin : ℤ) - (startMin : ℤ)
    startMin := startMin
    endMin := endMin }

/-- Per-task split logic of `taskSegments`: pure AM when
`startMinutes < 720 && endMinutes <= 720`, pure PM when
`startMinutes >= 720`, otherwise an AM part up to 720 and a PM part
from 720. -/
def segmentsOfTask (projects : List Project) (dayIdx : String → ℤ) (now : ℤ)
    (t : Task) : List Segment :=
  let startMinutes := toMinutes t.startTime
  let endMinutes := toMinutes t.endTime
  let color := resolveColor projects t
  if startMinutes < 720 ∧ endMinutes ≤ 720 then
    [addSegment dayIdx now t color false startMinutes endMinutes]
  else if 720 ≤ startMinutes then
    [addSegment dayIdx now t color true startMinutes endMinutes]
  else
    [addSegment dayIdx now t color false startMinutes 720,
      addSegment dayIdx now t color true 720 endMinutes]

/-- Full `taskSegments` computation: emit the segments of every task of the
day and sort by duration descending
(`segments.sort((a, b) => b.duration - a.duration)`). -/
def taskSegments (projects : List Project) (dayIdx : String → ℤ) (now : ℤ)
    (dayTasks : List Task) : List Segment :=
  (dayTasks.flatMap (segmentsOfTask projects dayIdx now)).mergeSort
    (fun a b => decide (b.duration ≤ a.duration))

lemma segmentsOfTask_pureAM (projects : List Project) (dayIdx : String → ℤ)
    (now : ℤ) (t : Task) (hs : toMinutes t.startTime < 720)
    (he : toMinutes t.endTime ≤ 720) :
    segmentsOfTask projects dayIdx now t =
      [addSegment dayIdx now t (resolveColor projects t) false
        (toMinutes t.startTime) (toMinutes t.endTime)] := by
  simp only [segmentsOfTask]
  rw [if_pos ⟨hs, he⟩]

lemma segmentsOfTask_purePM (projects : List Project) (dayIdx : String → ℤ)
    (now : ℤ) (t : Task) (hs : 720 ≤ toMinutes t.startTime) :
    segmentsOfTask projects dayIdx now t =
      [addSegment dayIdx now t (resolveColor projects t) true
        (toMinutes t.startTime) (toMinutes t.endTime)] := by
  simp only [segmentsOfTask]
  rw [if_neg (by omega), if_pos hs]

lemma segmentsOfTask_split (projects : List Project) (dayIdx : String → ℤ)
    (now : ℤ) (t : Task) (hs : toMinutes t.startTime < 720)
    (he : 720 < toMinutes t.endTime) :
    segmentsOfTask projects dayIdx now t =
      [addSegment dayIdx now t (resolveColor projects t) false
        (toMinutes t.startTime) 720,
       addSegment dayIdx now t (resolveColor projects t) true 720
        (toMinutes t.endTime)] := by
  simp only [segmentsOfTask]
  rw [if_neg (by omega), if_neg (by omega)]

lemma isActive_of_mem_segmentsOfTask (projects : List Project)
    (dayIdx : String → ℤ) (now : ℤ) (t : Task) (s : Segment)
    (hs : s ∈ segmentsOfTask projects dayIdx now t) :
    s.isActive = isWithinInterval now
      (dayIdx t.date * 1440 + (toMinutes t.startTime : ℤ))
      (dayIdx t.date * 1440 + (toMinutes t.endTime : ℤ)) := by
  simp only [segmentsOfTask] at hs
  split_ifs at hs <;>
    simp only [List.mem_singleton, List.mem_cons, List.not_mem_nil,
      or_false] at hs
  · subst hs; rfl
  · subst hs; rfl
  · rcases hs with hs | hs <;> (subst hs; rfl)

/-! ## Month grid projector (Calendar.tsx) -/

/-- Calendar.tsx `isTimeNow`: false unless `now` lies on the task's date,
otherwise date-fns `isWithinInterval` containment (inclusive of both
endpoints) of the current minutes in the task interval. -/
def isTimeNow (t : Task) (nowDate : String) (nowMin : Nat) : Bool :=
  if nowDate == t.date then
    isWithinInterval (nowMin : ℤ) (toMinutes t.startTime : ℤ)
      (toMinutes t.endTime : ℤ)
  else false

/-- Calendar.tsx `getTasksForDay`: tasks of the cell's date, sorted
ascending by `startTime` string comparison. -/
def getTasksForDay (tasks : List Task) (date : String) : List Task :=
  (tasks.filter (fun t => t.date == date)).mergeSort
    (fun a b => strLe a.startTime b.startTime)

/-- JavaScript `Array.prototype.findIndex`: index of the first match, `-1`
when there is none. -/
def findIndex (p : Task → Bool) (l : List Task) : ℤ :=
  match l.findIdx? p with
  | some i => (i : ℤ)
  | none => -1

/-- Month-cell windowing from the Calendar render body (`maxVisible = 3`):
when more than 3 tasks and an active one exists, start the window at
`Math.max(0, activeIndex - 1)` and pull it back to
`Math.max(0, dayTasks.length - 3)` when it would run past the end;
otherwise the first 3; cells with at most 3 tasks show everything. -/
def displayTasks (dayTasks : List Task) (nowDate : String) (nowMin : Nat) :
    List Task :=
  let activeIndex := findIndex (fun t => isTimeNow t nowDate nowMin) dayTasks
  if 3 < dayTasks.length then
    if activeIndex ≠ -1 then
      let start : ℤ := max 0 (activeIndex - 1)
      let start : ℤ :=
        if (dayTasks.length : ℤ) < start + 3 then
          max 0 ((dayTasks.length : ℤ) - 3)
        else start
      (dayTasks.drop start.toNat).take 3
    else
      dayTasks.take 3
  else dayTasks

/-- Hidden-task count reported as `+ N more`:
`dayTasks.length - displayTasks.length`. -/
def moreCount (dayTasks : List Task) (nowDate : String) (nowMin : Nat) : Nat :=
  dayTasks.length - (displayTasks dayTasks nowDate nowMin).length

/-! ## Task handlers (App.tsx) -/

/-- App.tsx `handleMoveTask`: `const updatedTask = { ...task, date: newDate }`. -/
def handleMoveTask (t : Task) (newDate : String) : Task :=
  { t with date := newDate }

/-- The `setTasks` updater of `handleUpdateTask`:
`prev.map(e => e.id === updatedTask.id ? updatedTask : e)`. -/
def updateTaskList (tasks : List Task) (u : Task) : List Task :=
  tasks.map (fun e => if e.id == u.id then u else e)

/-- The create loop of `handleAddTasks`: for each task in order, an
unparseable date logs an error and returns (no further `api.createTask`
calls); otherwise the task is sent to `api.createTask`.  Result:
(createTask calls issued, error logged).  `parses` models
`!Number.isNaN(new Date(s).getTime())`. -/
def addTasksLoop (parses : String → Bool) : List Task → List Task × Bool
  | [] => ([], false)
  | t :: ts =>
    if parses t.date then
      let r := addTasksLoop parses ts
      (t :: r.1, r.2)
    else ([], true)

/-- App.tsx `handleAddTasks` as a state transition: the optimistic update
`setTasks(prev => [...prev, ...newTasks])` runs before any validation,
then the loop validates each date before its network call.  Result:
(new task collection, createTask calls issued, error logged). -/
def handleAddTasks (parses : String → Bool) (tasks newTasks : List Task) :
    List Task × List Task × Bool :=
  (tasks ++ newTasks, addTasksLoop parses newTasks)

/-- App.tsx `handleUpdateTask` as a state transition: the date is validated
first; on failure the handler logs an error and returns before `setTasks`
and before `api.updateTask`.  Result: (new task collection, updateTask
calls issued, error logged). -/
def handleUpdateTask (parses : String → Bool) (tasks : List Task) (u : Task) :
    List Task × List Task × Bool :=
  if parses u.date then (updateTaskList tasks u, [u], false)
  else (tasks, [], true)

/-! ## Helper lemmas -/

lemma lexLe_total (a b : List Char) : lexLe a b = true ∨ lexLe b a = true := by
  induction a generalizing b with
  | nil => left; rfl
  | cons x xs ih =>
    cases b with
    | nil => right; rfl
    | cons y ys =>
      by_cases hxy : x = y
      · subst hxy
        rcases ih ys with h | h
        · left; simpa [lexLe] using h
        · right; simpa [lexLe] using h
      · rcases lt_or_gt_of_ne hxy with h | h
        · left; simp [lexLe, hxy, h]
        · right; simp [lexLe, Ne.symm hxy, h]

lemma lexLe_trans (a b c : List Char) (hab : lexLe a b = true)
    (hbc : lexLe b c = true) : lexLe a c = true := by
  induction a generalizing b c with
  | nil => rfl
  | cons x xs ih =>
    cases b with
    | nil => simp [lexLe] at hab
    | cons y ys =>
      cases c with
      | nil => simp [lexLe] at hbc
      | cons z zs =>
        by_cases hxy : x = y <;> by_cases hyz : y = z
        · subst hxy; subst hyz
          simp only [lexLe, if_pos rfl] at *
          exact ih ys zs hab hbc
        · subst hxy
          simpa [lexLe, hyz] using hbc
        · subst hyz
          simpa [lexLe, hxy] using hab
        · simp only [lexLe, if_neg hxy, if_neg hyz, decide_eq_true_eq] at hab hbc
          have hxz : x < z := lt_trans hab hbc
          simp [lexLe, ne_of_lt hxz, hxz]

lemma addTasksLoop_error (parses : String → Bool) :
    ∀ l : List Task, (∃ t ∈ l, parses t.date = false) →
      (addTasksLoop parses l).2 = true := by
  intro l
  induction l with
  | nil => rintro ⟨t, ht, _⟩; cases ht
  | cons x xs ih =>
    rintro ⟨t, ht, hp⟩
    by_cases hx : parses x.date
    · simp only [addTasksLoop, if_pos hx]
      rcases List.mem_cons.mp ht with rfl | hmem
      · rw [hx] at hp; cases hp
      · exact ih ⟨t, hmem, hp⟩
    · simp [addTasksLoop, hx]

lemma addTasksLoop_calls (parses : String → Bool) :
    ∀ l : List Task, ∀ s ∈ (addTasksLoop parses l).1, parses s.date = true := by
  intro l
  induction l with
  | nil => intro s hs; cases hs
  | cons x xs ih =>
    intro s hs
    by_cases hx : parses x.date
    · simp only [addTasksLoop, if_pos hx] at hs
      rcases List.mem_cons.mp hs with rfl | hmem
      · exact hx
      · exact ih s hmem
    · simp [addTasksLoop, hx] at hs

lemma addTasksLoop_calls_eq (parses : String → Bool) :
    ∀ l : List Task,
      (addTasksLoop parses l).1 = l.takeWhile (fun t => parses t.date) := by
  intro l
  induction l with
  | nil => rfl
  | cons x xs ih =>
    by_cases hx : parses x.date
    · simp [addTasksLoop, hx, List.takeWhile_cons, ih]
    · simp [addTasksLoop, hx, List.takeWhile_cons]

lemma takeWhile_prefix_stop (p : Task → Bool) :
    ∀ (pre : List Task) (t : Task) (post : List Task),
      (∀ u ∈ pre, p u = true) → p t = false →
      (pre ++ t :: post).takeWhile p = pre := by
  intro pre
  induction pre with
  | nil =>
    intro t post _ ht
    simp [List.takeWhile_cons, ht]
  | cons x xs ih =>
    intro t post hpre ht
    have hx : p x = true := hpre x (List.mem_cons_self _ _)
    simp [List.takeWhile_cons, hx,
      ih t post (fun u hu => hpre u (List.mem_cons_of_mem _ hu)) ht]

/-! ## Concrete sample data -/

/-- Sample task with no checklist, not completed, 09:00 to 10:00. -/
def sampleTask : Task :=
  { id := "t1", projectId := "p1", title := "Bake cookies",
    date := "2024-12-05", startTime := "09:00", endTime := "10:00",
    description := none, checklist := [], contentIdeas := [],
    completed := false }

/-- Checklist with three items, one of them done. -/
def sampleChecklist : List ChecklistItem :=
  [⟨"c1", "dough", true⟩, ⟨"c2", "bake", false⟩, ⟨"c3", "decorate", false⟩]

/-- Task with a 3-item checklist (1 done), not completed. -/
def thirdDoneTask : Task :=
  { sampleTask with id := "t2", checklist := sampleChecklist }

/-- Task from 11:00 to 13:00, spanning noon. -/
def noonTask : Task :=
  { sampleTask with id := "t3", startTime := "11:00", endTime := "13:00" }

/-- Task whose date string is not a parseable date. -/
def badDateTask : Task :=
  { sampleTask with id := "t4", date := "definitely-not-a-date" }

/-! ## Claims -/

/-- Claim C1: for every task, completion scoring produces a progress value
in [0,1]: `completed = true` gives progress 1 regardless of checklist;
otherwise a non-empty checklist gives (done items)/(total items); otherwise
progress 0.  The per-task contribution of the App.tsx project-progress loop
agrees with this scoring. -/
theorem claim_C1_completion_scoring (t : Task) :
    (0 ≤ progress t ∧ progress t ≤ 1) ∧
    (t.completed = true → progress t = 1) ∧
    (t.completed = false → t.checklist.length ≠ 0 →
      progress t = (doneCount t : ℚ) / (t.checklist.length : ℚ)) ∧
    (t.completed = false → t.checklist.length = 0 → progress t = 0) ∧
    taskScore t = progress t := by
  refine ⟨⟨progress_nonneg t, progress_le_one t⟩, ?_, ?_, ?_,
    taskScore_eq_progress t⟩
  · intro h; simp [progress, h]
  · intro h htot; simp [progress, h, htot]
  · intro h htot; simp [progress, h, htot]

/-- Witness for C1 at a concrete task: not completed, checklist of 3 items
with 1 done, progress 1/3. -/
theorem claim_C1_witness :
    thirdDoneTask.completed = false ∧ thirdDoneTask.checklist.length ≠ 0 ∧
      progress thirdDoneTask = 1 / 3 := by
  refine ⟨by decide, by decide, ?_⟩
  have h := (claim_C1_completion_scoring thirdDoneTask).2.2.1 (by decide) (by decide)
  rw [h, show doneCount thirdDoneTask = 1 from rfl,
    show thirdDoneTask.checklist.length = 3 from rfl]
  norm_num

/-- Claim C5 counterexample: a task with no checklist and not completed has
`DayView.getOpacity` 0.2, not 0.15 + progress × 0.85 = 0.15, so not every
alpha computation uses the 0.15 + 0.85 × progress mapping. -/
theorem claim_C5_counterexample :
    getOpacity sampleTask ≠ 0.15 + progress sampleTask * 0.85 := by
  norm_num [getOpacity, progress, sampleTask]

/-- Claim C5 (amended): `getTaskStyle` computes alpha = 0.15 + progress ×
0.85 (0 gives 0.15, 1 gives 1), while `DayView.getOpacity` computes
alpha = 0.2 + progress × 0.8 (0 gives 0.2, 1 gives 1); both are monotone
non-decreasing in progress. -/
theorem claim_C5_alpha_mapping (t u : Task) :
    (getTaskStyleAlpha t = 0.15 + progress t * 0.85) ∧
    (progress t = 0 → getTaskStyleAlpha t = 0.15) ∧
    (progress t = 1 → getTaskStyleAlpha t = 1) ∧
    (getOpacity t = 0.2 + progress t * 0.8) ∧
    (progress t = 0 → getOpacity t = 0.2) ∧
    (progress t = 1 → getOpacity t = 1) ∧
    (progress t ≤ progress u →
      getTaskStyleAlpha t ≤ getTaskStyleAlpha u ∧
        getOpacity t ≤ getOpacity u) := by
  have hop : ∀ v : Task, getOpacity v = 0.2 + progress v * 0.8 := by
    intro v
    simp only [getOpacity, progress]
    rcases h : v.completed with _ | _
    · by_cases htot : v.checklist.length = 0
      · simp [h, htot]
      · simp [h, htot]
    · simp [h]; norm_num
  refine ⟨rfl, ?_, ?_, hop t, ?_, ?_, ?_⟩
  · intro h; simp [getTaskStyleAlpha, h]
  · intro h; simp [getTaskStyleAlpha, h]; norm_num
  · intro h; rw [hop t, h]; norm_num
  · intro h; rw [hop t, h]; norm_num
  · intro h
    constructor
    · simp only [getTaskStyleAlpha]; nlinarith
    · rw [hop t, hop u]; nlinarith

/-- Witness for C5 (amended) at concrete tasks: zero-progress task has
alpha 0.15 and opacity 0.2; monotone step to a task with progress 1/3. -/
theorem claim_C5_witness :
    progress sampleTask = 0 ∧ getTaskStyleAlpha sampleTask = 0.15 ∧
      getOpacity sampleTask = 0.2 ∧
      getTaskStyleAlpha sampleTask ≤ getTaskStyleAlpha thirdDoneTask := by
  have hp0 : progress sampleTask = 0 := by norm_num [progress, sampleTask]
  have h := claim_C5_alpha_mapping sampleTask thirdDoneTask
  exact ⟨hp0, h.2.1 hp0, h.2.2.2.2.1 hp0,
    (h.2.2.2.2.2.2 (by rw [hp0]; exact progress_nonneg _)).1⟩

/-- Claim C2: with a valid interval (start before end), a task ending at
or before minute 720 yields exactly one AM segment; a task starting at or
after minute 720 yields exactly one PM segment; a task spanning noon
yields exactly two segments, the AM one ending at 720 and the PM one
starting at 720, both with the task's id, their durations summing to the
task's duration. -/
theorem claim_C2_noon_split (projects : List Project) (dayIdx : String → ℤ)
    (now : ℤ) (t : Task)
    (h : toMinutes t.startTime < toMinutes t.endTime) :
    (toMinutes t.endTime ≤ 720 →
      ∃ s, segmentsOfTask projects dayIdx now t = [s] ∧ s.isPm = false ∧
        s.id = t.id ∧ s.startMin = toMinutes t.startTime ∧
        s.endMin = toMinutes t.endTime) ∧
    (720 ≤ toMinutes t.startTime →
      ∃ s, segmentsOfTask projects dayIdx now t = [s] ∧ s.isPm = true ∧
        s.id = t.id ∧ s.startMin = toMinutes t.startTime ∧
        s.endMin = toMinutes t.endTime) ∧
    (toMinutes t.startTime < 720 → 720 < toMinutes t.endTime →
      ∃ a b, segmentsOfTask projects dayIdx now t = [a, b] ∧
        a.isPm = false ∧ b.isPm = true ∧ a.id = t.id ∧ b.id = t.id ∧
        a.startMin = toMinutes t.startTime ∧ a.endMin = 720 ∧
        b.startMin = 720 ∧ b.endMin = toMinutes t.endTime ∧
        a.duration + b.duration =
          (toMinutes t.endTime : ℤ) - (toMinutes t.startTime : ℤ)) := by
  refine ⟨fun he => ?_, fun hs => ?_, fun hs he => ?_⟩
  · exact ⟨_, segmentsOfTask_pureAM projects dayIdx now t (by omega) he,
      rfl, rfl, rfl, rfl⟩
  · exact ⟨_, segmentsOfTask_purePM projects dayIdx now t hs,
      rfl, rfl, rfl, rfl⟩
  · refine ⟨_, _, segmentsOfTask_split projects dayIdx now t hs he,
      rfl, rfl, rfl, rfl, rfl, rfl, rfl, rfl, ?_⟩
    show ((720 : Nat) : ℤ) - (toMinutes t.startTime : ℤ) +
      ((toMinutes t.endTime : ℤ) - ((720 : Nat) : ℤ)) = _
    push_cast
    ring

/-- Witness for C2 at the concrete 11:00 to 13:00 task. -/
theorem claim_C2_witness :
    toMinutes noonTask.startTime < toMinutes noonTask.endTime ∧
    (∃ a b, segmentsOfTask [] (fun _ => 0) 0 noonTask = [a, b] ∧
      a.isPm = false ∧ b.isPm = true ∧ a.id = noonTask.id ∧
      b.id = noonTask.id ∧ a.startMin = toMinutes noonTask.startTime ∧
      a.endMin = 720 ∧ b.startMin = 720 ∧
      b.endMin = toMinutes noonTask.endTime ∧
      a.duration + b.duration =
        (toMinutes noonTask.endTime : ℤ) - (toMinutes noonTask.startTime : ℤ)) :=
  ⟨by decide,
    (claim_C2_noon_split [] (fun _ => 0) 0 noonTask (by decide)).2.2
      (by decide) (by decide)⟩

/-- Claim C3: the segment-angle conversion of `addSegment` does NOT
implement (hour mod 12) × 30 + minute × 0.5: at 90 minutes (01:30) it
yields 60°, while the claimed formula, also used by the clock hand of the
same view, yields 45° (the JavaScript expression `(startMin / 60) % 12`
divides in real arithmetic, so minutes are double-counted). -/
theorem claim_C3_angle_eval :
    minuteToDeg 90 = 60 ∧ currentHandDegrees 1 30 = 45 ∧
      minuteToDeg 90 ≠ currentHandDegrees 1 30 := by
  norm_num [minuteToDeg, currentHandDegrees, jsMod]

/-- Claim C4: the output of `taskSegments` is sorted by duration
descending (every earlier segment has duration at least that of every
later one), and is a permutation of the segments emitted for the day's
tasks. -/
theorem claim_C4_zorder (projects : List Project) (dayIdx : String → ℤ)
    (now : ℤ) (dayTasks : List Task) :
    (taskSegments projects dayIdx now dayTasks).Pairwise
      (fun a b => b.duration ≤ a.duration) ∧
    (taskSegments projects dayIdx now dayTasks).Perm
      (dayTasks.flatMap (segmentsOfTask projects dayIdx now)) := by
  constructor
  · have h := @List.sorted_mergeSort Segment
      (fun a b => decide (b.duration ≤ a.duration))
      (fun a b c hab hbc => by
        simp only [decide_eq_true_eq] at *; omega)
      (fun a b => by
        simp only [Bool.or_eq_true, decide_eq_true_eq]; omega)
      (dayTasks.flatMap (segmentsOfTask projects dayIdx now))
    exact h.imp (fun hd => by simpa using hd)
  · exact List.mergeSort_perm _ _

/-- Claim C9 (amended): every segment emitted for a task — both halves of a
noon split included — carries `isActive = true` exactly when the evaluation
instant lies in the closed interval [startTime, endTime] of the original,
unsplit task interval on the task's date; consequently the halves of a
split task always agree. -/
theorem claim_C9_active_flag (projects : List Project) (dayIdx : String → ℤ)
    (now : ℤ) (t : Task) :
    (∀ s ∈ segmentsOfTask projects dayIdx now t,
      (s.isActive = true ↔
        dayIdx t.date * 1440 + (toMinutes t.startTime : ℤ) ≤ now ∧
          now ≤ dayIdx t.date * 1440 + (toMinutes t.endTime : ℤ))) ∧
    (∀ s₁ ∈ segmentsOfTask projects dayIdx now t,
      ∀ s₂ ∈ segmentsOfTask projects dayIdx now t,
        s₁.isActive = s₂.isActive) := by
  constructor
  · intro s hs
    rw [isActive_of_mem_segmentsOfTask projects dayIdx now t s hs]
    simp [isWithinInterval]
  · intro s₁ h₁ s₂ h₂
    rw [isActive_of_mem_segmentsOfTask projects dayIdx now t s₁ h₁,
      isActive_of_mem_segmentsOfTask projects dayIdx now t s₂ h₂]

/-- Witness for C9 (amended): the AM half of the noon-spanning task is
active at instant 700 (11:40), which lies inside the original interval. -/
theorem claim_C9_witness :
    (addSegment (fun _ => 0) 700 noonTask (resolveColor [] noonTask) false
      (toMinutes noonTask.startTime) 720).isActive = true := by
  have hmem : addSegment (fun _ => 0) 700 noonTask (resolveColor [] noonTask)
      false (toMinutes noonTask.startTime) 720 ∈
      segmentsOfTask [] (fun _ => 0) 700 noonTask := by
    rw [segmentsOfTask_split [] (fun _ => 0) 700 noonTask (by decide) (by decide)]
    exact List.mem_cons_self _ _
  rw [(claim_C9_active_flag [] (fun _ => 0) 700 noonTask).1 _ hmem]
  exact ⟨by decide, by decide⟩

/-- Claim C9 counterexample: at the evaluation instant exactly equal to the
task's endTime (10:00 for the sample task) the emitted segment is active —
date-fns `isWithinInterval` includes the right endpoint — contradicting the
claimed half-open interval [startTime, endTime). -/
theorem claim_C9_counterexample :
    (segmentsOfTask [] (fun _ => 0)
      ((0 : ℤ) * 1440 + (toMinutes sampleTask.endTime : ℤ)) sampleTask).map
      Segment.isActive = [true] := by
  decide

lemma displayTasks_active_window (l : List Task) (nowDate : String)
    (nowMin : Nat) (a : Nat) (h3 : 3 < l.length) (ha : a < l.length)
    (hfind : l.findIdx? (fun t => isTimeNow t nowDate nowMin) = some a) :
    displayTasks l nowDate nowMin =
      (l.drop (min (a - 1) (l.length - 3))).take 3 := by
  simp only [displayTasks, findIndex, hfind]
  rw [if_pos h3, if_pos (show ((a : ℤ)) ≠ -1 by omega)]
  have harg : (if (l.length : ℤ) < max 0 ((a : ℤ) - 1) + 3 then
      max 0 ((l.length : ℤ) - 3) else max 0 ((a : ℤ) - 1)).toNat
      = min (a - 1) (l.length - 3) := by
    split_ifs with hc <;> omega
  rw [harg]

lemma get_mem_window (l : List Task) (s a : Nat) (ha : a < l.length)
    (h1 : s ≤ a) (h2 : a < s + 3) : l.get ⟨a, ha⟩ ∈ (l.drop s).take 3 := by
  have h5 : a - s < ((l.drop s).take 3).length := by
    simp only [List.length_take, List.length_drop]
    omega
  have hidx : s + (a - s) = a := by omega
  have h6 : ((l.drop s).take 3).get ⟨a - s, h5⟩ = l.get ⟨a, ha⟩ := by
    simp [List.get_eq_getElem, List.getElem_take, List.getElem_drop, hidx]
  rw [← h6]
  exact List.get_mem _ _ _

/-- Claim C6: a month-grid day cell lists exactly the tasks of its date
sorted ascending by `startTime` string comparison; at most 3 are displayed;
with more than 3 tasks and a unique active one at index `a` the window is
the 3 tasks from `max(0, a-1)` clamped to the array end (equivalently from
`min(a-1, n-3)`); with no active task the first 3 are shown; the hidden
count reported by `+N more` is total minus displayed. -/
theorem claim_C6_month_cell (tasks : List Task) (date : String)
    (nowDate : String) (nowMin : Nat) :
    (∀ t : Task, t ∈ getTasksForDay tasks date ↔ t ∈ tasks ∧ t.date = date) ∧
    (getTasksForDay tasks date).Pairwise
      (fun a b => strLe a.startTime b.startTime = true) ∧
    (∀ l : List Task, (displayTasks l nowDate nowMin).length ≤ 3) ∧
    (∀ (l : List Task) (a : Nat), 3 < l.length → ∀ ha : a < l.length,
      isTimeNow (l.get ⟨a, ha⟩) nowDate nowMin = true →
      (∀ j (hj : j < l.length), j ≠ a →
        isTimeNow (l.get ⟨j, hj⟩) nowDate nowMin = false) →
      displayTasks l nowDate nowMin =
        (l.drop (min (a - 1) (l.length - 3))).take 3) ∧
    (∀ l : List Task, (∀ t ∈ l, isTimeNow t nowDate nowMin = false) →
      displayTasks l nowDate nowMin = l.take 3) ∧
    (∀ l : List Task, moreCount l nowDate nowMin =
      l.length - (displayTasks l nowDate nowMin).length) := by
  refine ⟨?_, ?_, ?_, ?_, ?_, fun l => rfl⟩
  · intro t
    simp [getTasksForDay, List.mem_filter, beq_iff_eq]
  · have h := @List.sorted_mergeSort Task
      (fun a b => strLe a.startTime b.startTime)
      (fun a b c hab hbc => lexLe_trans _ _ _ hab hbc)
      (fun a b => by
        rcases lexLe_total a.startTime.data b.startTime.data with h | h <;>
          simp [strLe, h])
      (tasks.filter (fun t => t.date == date))
    exact h.imp (fun hd => by simpa using hd)
  · intro l
    simp only [displayTasks]
    split_ifs <;> first
      | exact List.length_take_le _ _
      | omega
  · intro l a h3 ha hact huniq
    have hfind : l.findIdx? (fun t => isTimeNow t nowDate nowMin) = some a := by
      rw [List.findIdx?_eq_some_iff_getElem]
      refine ⟨ha, by simpa using hact, ?_⟩
      intro j hj
      simpa using huniq j (by omega) (by omega)
    exact displayTasks_active_window l nowDate nowMin a h3 ha hfind
  · intro l hnone
    have hfind : l.findIdx? (fun t => isTimeNow t nowDate nowMin) = none := by
      rw [List.findIdx?_eq_none_iff]
      intro x hx
      exact hnone x hx
    simp only [displayTasks, findIndex, hfind]
    by_cases h3 : 3 < l.length
    · rw [if_pos h3, if_neg (show ¬((-1 : ℤ) ≠ -1) by simp)]
    · rw [if_neg h3]
      exact (List.take_of_length_le (show l.length ≤ 3 by omega)).symm

/-- Four tasks on the sample date, sorted by start time, the third one
(12:00 to 13:00) active at 12:30. -/
def fourTasks : List Task :=
  [{ sampleTask with id := "a", startTime := "08:00", endTime := "09:00" },
   { sampleTask with id := "b", startTime := "10:00", endTime := "11:00" },
   { sampleTask with id := "c", startTime := "12:00", endTime := "13:00" },
   { sampleTask with id := "d", startTime := "14:00", endTime := "15:00" }]

/-- Witness for C6: four tasks with the unique active one at index 2 at
12:30 produce the window starting at min(2-1, 4-3) = 1. -/
theorem claim_C6_witness :
    displayTasks fourTasks "2024-12-05" 750 =
      (fourTasks.drop (min (2 - 1) (fourTasks.length - 3))).take 3 :=
  (claim_C6_month_cell [] "2024-12-05" "2024-12-05" 750).2.2.2.1 fourTasks 2
    (by decide) (by decide) (by decide) (by decide)

/-- Claim C10: whenever a cell's task list has more than 3 tasks and the
first active task sits at index `a`, the clamped window start
`min(a-1, n-3)` satisfies `start ≤ a < start + 3`, so the active task is
always among the displayed tasks. -/
theorem claim_C10_active_in_window (l : List Task) (nowDate : String)
    (nowMin : Nat) (a : Nat) (h3 : 3 < l.length)
    (hfind : l.findIdx? (fun t => isTimeNow t nowDate nowMin) = some a) :
    min (a - 1) (l.length - 3) ≤ a ∧
    a < min (a - 1) (l.length - 3) + 3 ∧
    ∃ ha : a < l.length,
      l.get ⟨a, ha⟩ ∈ displayTasks l nowDate nowMin := by
  rcases List.findIdx?_eq_some_iff_getElem.mp hfind with ⟨ha, hp, hmin⟩
  have h1 : min (a - 1) (l.length - 3) ≤ a := by omega
  have h2 : a < min (a - 1) (l.length - 3) + 3 := by omega
  refine ⟨h1, h2, ha, ?_⟩
  rw [displayTasks_active_window l nowDate nowMin a h3 ha hfind]
  exact get_mem_window l (min (a - 1) (l.length - 3)) a ha h1 h2

/-- Five tasks on the sample date, sorted by start time, the last one
(12:00 to 13:00) active at 12:30 — the clamped case of the window. -/
def fiveTasks : List Task :=
  [{ sampleTask with id := "a", startTime := "08:00", endTime := "09:00" },
   { sampleTask with id := "b", startTime := "09:30", endTime := "09:45" },
   { sampleTask with id := "c", startTime := "10:00", endTime := "11:00" },
   { sampleTask with id := "d", startTime := "11:00", endTime := "11:30" },
   { sampleTask with id := "e", startTime := "12:00", endTime := "13:00" }]

/-- Witness for C10: active task at the last index of five stays visible
after the window is clamped to start at index 2. -/
theorem claim_C10_witness :
    min (4 - 1) (fiveTasks.length - 3) ≤ 4 ∧
    4 < min (4 - 1) (fiveTasks.length - 3) + 3 ∧
    ∃ ha : 4 < fiveTasks.length,
      fiveTasks.get ⟨4, ha⟩ ∈ displayTasks fiveTasks "2024-12-05" 750 :=
  claim_C10_active_in_window fiveTasks "2024-12-05" 750 4 (by decide)
    (by decide)

/-- Claim C7: drag-reassigning a task replaces only its date; all other
fields are preserved; dropping on the current date is a no-op, both on the
task record and on the task collection (given ids are unique). -/
theorem claim_C7_move_preserves (t : Task) (newDate : String)
    (tasks : List Task) :
    (handleMoveTask t newDate).date = newDate ∧
    (handleMoveTask t newDate).id = t.id ∧
    (handleMoveTask t newDate).projectId = t.projectId ∧
    (handleMoveTask t newDate).title = t.title ∧
    (handleMoveTask t newDate).startTime = t.startTime ∧
    (handleMoveTask t newDate).endTime = t.endTime ∧
    (handleMoveTask t newDate).description = t.description ∧
    (handleMoveTask t newDate).checklist = t.checklist ∧
    (handleMoveTask t newDate).contentIdeas = t.contentIdeas ∧
    (handleMoveTask t newDate).completed = t.completed ∧
    (newDate = t.date → handleMoveTask t newDate = t) ∧
    (newDate = t.date → (∀ e ∈ tasks, e.id = t.id → e = t) →
      updateTaskList tasks (handleMoveTask t newDate) = tasks) := by
  refine ⟨rfl, rfl, rfl, rfl, rfl, rfl, rfl, rfl, rfl, rfl, ?_, ?_⟩
  · intro h; subst h; rfl
  · intro h huniq
    subst h
    show updateTaskList tasks t = tasks
    have hcong : ∀ e ∈ tasks, (if e.id == t.id then t else e) = id e := by
      intro e he
      by_cases hc : e.id == t.id
      · rw [if_pos hc]
        exact (huniq e he (by simpa using hc)).symm
      · rw [if_neg hc]; rfl
    simp only [updateTaskList]
    rw [List.map_congr_left hcong, List.map_id]

/-- Witness for C7: dropping the sample task on its own date is a no-op on
the record and on a singleton collection. -/
theorem claim_C7_witness :
    (handleMoveTask sampleTask "2024-12-05").startTime = sampleTask.startTime ∧
    handleMoveTask sampleTask "2024-12-05" = sampleTask ∧
    updateTaskList [sampleTask] (handleMoveTask sampleTask "2024-12-05") =
      [sampleTask] := by
  have h := claim_C7_move_preserves sampleTask "2024-12-05" [sampleTask]
  exact ⟨h.2.2.2.2.1, h.2.2.2.2.2.2.2.2.2.2.1 rfl,
    h.2.2.2.2.2.2.2.2.2.2.2 rfl (by decide)⟩

/-- Claim C8 counterexample: a create whose date fails to parse still
mutates the in-memory collection (the optimistic append runs before
validation), even though the error is logged and no createTask call is
issued — so "no state mutation occurs" fails for creates. -/
theorem claim_C8_counterexample :
    (handleAddTasks (fun _ => false) [] [badDateTask]).2.1 = [] ∧
    (handleAddTasks (fun _ => false) [] [badDateTask]).2.2 = true ∧
    (handleAddTasks (fun _ => false) [] [badDateTask]).1 = [badDateTask] ∧
    [badDateTask] ≠ ([] : List Task) :=
  ⟨rfl, rfl, rfl, List.cons_ne_nil _ _⟩

/-- Claim C8 (amended): an update whose date fails to parse is aborted
before the network call with an error logged and no state mutation; a
create whose batch contains a task with an unparseable date logs an error
and issues createTask calls only for the parseable prefix (never for a
failing task), but the optimistic insertion has already appended all new
tasks to the collection. -/
theorem claim_C8_date_validation (parses : String → Bool)
    (tasks : List Task) :
    (∀ u : Task, parses u.date = false →
      handleUpdateTask parses tasks u = (tasks, [], true)) ∧
    (∀ newTasks : List Task,
      (handleAddTasks parses tasks newTasks).1 = tasks ++ newTasks ∧
      ((∃ t ∈ newTasks, parses t.date = false) →
        (handleAddTasks parses tasks newTasks).2.2 = true) ∧
      (handleAddTasks parses tasks newTasks).2.1 =
        newTasks.takeWhile (fun t => parses t.date) ∧
      (∀ s ∈ (handleAddTasks parses tasks newTasks).2.1,
        parses s.date = true) ∧
      (∀ (pre : List Task) (t : Task) (post : List Task),
        newTasks = pre ++ t :: post → (∀ u ∈ pre, parses u.date = true) →
        parses t.date = false →
        (handleAddTasks parses tasks newTasks).2.1 = pre)) := by
  refine ⟨?_, fun newTasks => ⟨rfl, ?_, ?_, ?_, ?_⟩⟩
  · intro u hu
    simp [handleUpdateTask, hu]
  · exact addTasksLoop_error parses newTasks
  · exact addTasksLoop_calls_eq parses newTasks
  · exact addTasksLoop_calls parses newTasks
  · intro pre t post hsplit hpre ht
    subst hsplit
    show (addTasksLoop parses (pre ++ t :: post)).1 = pre
    rw [addTasksLoop_calls_eq parses (pre ++ t :: post)]
    exact takeWhile_prefix_stop _ pre t post hpre ht

/-- Witness for C8 (amended) on concrete data, with a date check that
accepts the sample date and rejects everything else: a failing update
leaves the collection untouched; a create batch whose first task has a bad
date logs the error and issues no createTask call at all, not even for the
parseable task that follows the failure. -/
theorem claim_C8_witness :
    handleUpdateTask (fun s => s == "2024-12-05") [sampleTask] badDateTask =
      ([sampleTask], [], true) ∧
    (handleAddTasks (fun s => s == "2024-12-05") [sampleTask]
      [badDateTask, sampleTask]).2.2 = true ∧
    (handleAddTasks (fun s => s == "2024-12-05") [sampleTask]
      [badDateTask, sampleTask]).2.1 = [] := by
  have h := claim_C8_date_validation (fun s => s == "2024-12-05") [sampleTask]
  refine ⟨h.1 badDateTask (by decide), ?_, ?_⟩
  · exact (h.2 [badDateTask, sampleTask]).2.1
      ⟨badDateTask, List.mem_cons_self _ _, by decide⟩
  · exact (h.2 [badDateTask, sampleTask]).2.2.2.2 [] badDateTask [sampleTask]
      rfl (by intro u hu; cases hu) (by decide)

end Planner
